import Mathlib

/-!
Shallow embedding of `src/DataScraping/poe2_api_scraper_full.py` (PoE2
session-based trade scraper): progress store, search/fetch HTTP clients,
category pipeline with one-level subdivision, session loop, and the
master-file aggregator.  Network I/O is modelled by explicit response
streams (for the HTTP-level clients) and by a deterministic `Oracle`
(for the pipeline level); filesystem writes and sleeps are recorded in
an explicit event log.
-/

namespace Poe2

/-- `ITEMS_PER_FETCH = 10` from the configuration block. -/
def ITEMS_PER_FETCH : Nat := 10

/-- `DELAY_BETWEEN_FETCHES = 5` from the configuration block. -/
def DELAY_BETWEEN_FETCHES : Nat := 5

/-- `DELAY_BETWEEN_SEARCHES = 10` from the configuration block. -/
def DELAY_BETWEEN_SEARCHES : Nat := 10

/-- `OUTPUT_DIR = "poe2_session_dump"`. -/
def OUTPUT_DIR : String := "poe2_session_dump"

/-- An item record: the scraper only ever inspects `item.get('id')`
(`none` models an absent key); `payload` stands for the rest of the
opaque JSON object. -/
structure Item where
  id : Option String
  payload : Nat
deriving DecidableEq

/-- Python truthiness of `item.get('id')`: both a missing key (`None`)
and an empty string are falsy, so the scraper treats them alike. -/
def truthyId (it : Item) : Option String :=
  match it.id with
  | none => none
  | some s => if s = ("") then none else some s

/-- One HTTP response as the two clients classify it:
200 with a parsed body, 429, another status code, or a transport
exception raised by `requests`. -/
inductive HResp (α : Type) where
  | ok (data : α)
  | rateLimited
  | otherStatus (code : Nat)
  | exception
deriving DecidableEq

/-- Parsed body of a 200 search response:
`{total: int, result: [id...], id: queryToken}`. -/
structure SearchData where
  total : Nat
  result : List String
  id : String
deriving DecidableEq

/-- Parsed body of a 200 fetch response: `{result: [itemRecord...]}`. -/
structure FetchData where
  result : List Item
deriving DecidableEq

/-- `search_items_with_filters`, run against a stream of successive
responses the network gives to its (re)issued request.  Returns
`((result, query_id, total), (requests issued, seconds slept))`.
200 parses the body; 429 sleeps 60 s and reissues (consuming the next
response); any other status or an exception returns the empty result
`([], '', 0)` without retrying.  An exhausted stream (never reached in
the theorems below) issues no request. -/
def search_items_with_filters :
    List (HResp SearchData) → (List String × String × Nat) × (Nat × Nat)
  | [] => (([], "", 0), (0, 0))
  | HResp.ok d :: _ => ((d.result, d.id, d.total), (1, 0))
  | HResp.rateLimited :: rest =>
      let r := search_items_with_filters rest
      (r.1, (r.2.1 + 1, r.2.2 + 60))
  | HResp.otherStatus _ :: _ => (([], "", 0), (1, 0))
  | HResp.exception :: _ => (([], "", 0), (1, 0))

/-- Retry loop of `fetch_items_batch` over its response stream (the
function body after the empty-guard): 200 returns the parsed JSON, 429
sleeps 60 s and reissues, anything else returns `None`. -/
def fetch_items_batch_go :
    List (HResp FetchData) → Option FetchData × (Nat × Nat)
  | [] => (none, (0, 0))
  | HResp.ok d :: _ => (some d, (1, 0))
  | HResp.rateLimited :: rest =>
      let r := fetch_items_batch_go rest
      (r.1, (r.2.1 + 1, r.2.2 + 60))
  | HResp.otherStatus _ :: _ => (none, (1, 0))
  | HResp.exception :: _ => (none, (1, 0))

/-- `fetch_items_batch`: `if not item_ids: return None` without issuing
any request; otherwise run the request/retry loop. -/
def fetch_items_batch (item_ids : List String)
    (resps : List (HResp FetchData)) : Option FetchData × (Nat × Nat) :=
  if item_ids = [] then (none, (0, 0)) else fetch_items_batch_go resps

/-- On-disk state of `progress.json`: absent, present but not valid
JSON with the two expected keys, or present and well formed. -/
inductive ProgressFile where
  | missing
  | corrupt
  | valid (completed_categories : List String) (seen_item_ids : List String)
deriving DecidableEq

/-- `load_progress`: if the file exists, `json.load` it and build the
two sets; the parse error of a corrupt file is NOT caught and
propagates (modelled as `Except.error`); a missing file yields two
empty sets. -/
def load_progress : ProgressFile → Except Unit (Finset String × Finset String)
  | ProgressFile.missing => Except.ok (∅, ∅)
  | ProgressFile.corrupt => Except.error ()
  | ProgressFile.valid c s => Except.ok (c.toFinset, s.toFinset)

/-- `save_progress`: serialises the two sets as JSON lists
(`list(completed_categories)`, `list(seen_item_ids)`) and overwrites
the progress file.  Python enumerates a set in an unspecified order;
we model `list(...)` by a canonical duplicate-free enumeration. -/
def save_progress (completed_categories seen_item_ids : Finset String) :
    ProgressFile :=
  ProgressFile.valid (completed_categories.sort (· ≤ ·))
    (seen_item_ids.sort (· ≤ ·))

/-- The filter payload of a search query, to the extent the scraper
manipulates it: the optional item-level constraint injected by the
subdivision strategy, plus the rest of the structured query, opaque
here. -/
structure Filters where
  ilvl : Option (Nat × Nat)
  rest : Nat
deriving DecidableEq

/-- Lines 181-192: deep-copy the filters (identity on pure values) and
set `sub_filters['filters']['misc_filters']['filters']['ilvl']` to
`{min, max}`. -/
def addIlvl (f : Filters) (lo hi : Nat) : Filters :=
  { f with ilvl := some (lo, hi) }

/-- The network abstracted at the pipeline level: what the search
client delivers for given filters (IDs, query token, total) and what
the fetch client delivers for a batch (`none` models a failed batch:
non-200, exception, or a body without a usable `result`). -/
structure Oracle where
  search : Filters → List String × String × Nat
  fetch : List String → String → Option FetchData

/-- A JSON file written by the pipeline (lines 154-162 and 211-220);
`subdivided` is `true` exactly when the metadata carries
`'subdivided': True`. -/
structure FileOut where
  filename : String
  category : String
  total_items : Nat
  subdivided : Bool
  items : List Item
deriving DecidableEq

/-- Observable side effects of a pipeline run, in program order. -/
inductive Event where
  | searchReq (filters : Filters)
  | fetchReq (ids : List String) (query_id : String)
  | sleep (secs : Nat)
  | writeFile (f : FileOut)
  | subdivide (category : String)
  | persist (completed : Finset String) (seen : Finset String)
deriving DecidableEq

/-- Line 151/208: `category_name.replace(" ", "_").replace("|", "-")
.replace("/", "-").replace(":", "")`. -/
def safe_name (category_name : String) : String :=
  ((((category_name.replace (" ") ("_")).replace ("|") ("-")).replace
    ("/") ("-")).replace (":") (""))

/-- The batch slicing of lines 131-138: `num_batches =
(len + ITEMS_PER_FETCH - 1) // ITEMS_PER_FETCH`; batch `i` is
`item_ids[i*10 : min(i*10+10, len)]`. -/
def batchesOf (item_ids : List String) : List (List String) :=
  let num_batches := (item_ids.length + ITEMS_PER_FETCH - 1) / ITEMS_PER_FETCH
  (List.range num_batches).map
    (fun i => ((item_ids.drop (i * ITEMS_PER_FETCH)).take ITEMS_PER_FETCH))

/-- Items a batch contributes: `fetch_items_batch` slices the ids to
`ITEMS_PER_FETCH` before the request; `if batch_data and
batch_data.get('result')` extends with `batch_data['result']`,
otherwise nothing is added (an empty `result` adds nothing either
way). -/
def fetchResult (o : Oracle) (batch : List String) (query_id : String) :
    List Item :=
  match o.fetch (batch.take ITEMS_PER_FETCH) query_id with
  | some d => d.result
  | none => []

/-- The fetch loop of lines 135-147: one request per batch, results
concatenated in batch order, `DELAY_BETWEEN_FETCHES` slept after every
batch except the last. -/
def fetchBatches (o : Oracle) (query_id : String) :
    List (List String) → List Item × List Event
  | [] => ([], [])
  | [b] =>
      (fetchResult o b query_id,
       [Event.fetchReq (b.take ITEMS_PER_FETCH) query_id])
  | b :: b2 :: rest =>
      let r := fetchBatches o query_id (b2 :: rest)
      (fetchResult o b query_id ++ r.1,
       Event.fetchReq (b.take ITEMS_PER_FETCH) query_id ::
         Event.sleep DELAY_BETWEEN_FETCHES :: r.2)

/-- The SAVE step (lines 150-164): `{OUTPUT_DIR}/{safe_name}.json` is
written only when the item list is nonempty. -/
def saveEvents (category_name : String) (all_items : List Item) :
    List Event :=
  if all_items = [] then []
  else
    [Event.writeFile
      { filename := OUTPUT_DIR ++ ("/") ++ safe_name category_name ++ (".json")
        category := category_name
        total_items := all_items.length
        subdivided := false
        items := all_items }]

/-- FETCH then SAVE for a category that is not being subdivided
(lines 130-166). -/
def fetchAndSave (o : Oracle) (category_name : String)
    (item_ids : List String) (query_id : String) : List Item × List Event :=
  let r := fetchBatches o query_id (batchesOf item_ids)
  (r.1, r.2 ++ saveEvents category_name r.1)

/-- `scrape_category` as invoked with `subdivide_if_full=False` (the
subdivision branch is then unreachable, its condition conjoining
`subdivide_if_full`); this is the form the subdivision loop calls. -/
def scrape_category_noSub (o : Oracle) (category_name : String)
    (filters : Filters) : List Item × List Event :=
  let s := o.search filters
  if s.1 = [] then ([], [Event.searchReq filters])
  else
    let r := fetchAndSave o category_name s.1 s.2.1
    (r.1, Event.searchReq filters :: r.2)

/-- The ten fixed item-level ranges of lines 173-176. -/
def level_ranges : List (Nat × Nat) :=
  [(1, 20), (21, 40), (41, 50), (51, 60), (61, 65),
   (66, 70), (71, 75), (76, 80), (81, 85), (86, 100)]

/-- The per-range loop of lines 180-202: clone the filters, inject the
level bounds, scrape `{name}_ilvl{lo}-{hi}` with subdivision disabled,
accumulate, and sleep 2 s after every range (including the last). -/
def subdivisionLoop (o : Oracle) (category_name : String)
    (filters : Filters) : List (Nat × Nat) → List Item × List Event
  | [] => ([], [])
  | (lo, hi) :: rest =>
      let sub_category :=
        category_name ++ ("_ilvl") ++ toString lo ++ ("-") ++ toString hi
      let r := scrape_category_noSub o sub_category (addIlvl filters lo hi)
      let rr := subdivisionLoop o category_name filters rest
      (r.1 ++ rr.1, r.2 ++ [Event.sleep 2] ++ rr.2)

/-- `scrape_with_subdivision` (lines 168-224): run the ten sub-scrapes
and, when the combined list is nonempty, write the single
`_COMBINED.json` file tagged `subdivided=true`.  The `total_items`
argument only feeds prints in the source. -/
def scrape_with_subdivision (o : Oracle) (category_name : String)
    (filters : Filters) (_total_items : Nat) : List Item × List Event :=
  let r := subdivisionLoop o category_name filters level_ranges
  let combinedSave :=
    if r.1 = [] then []
    else
      [Event.writeFile
        { filename :=
            OUTPUT_DIR ++ ("/") ++ safe_name category_name ++ ("_COMBINED.json")
          category := category_name
          total_items := r.1.length
          subdivided := true
          items := r.1 }]
  (r.1, Event.subdivide category_name :: (r.2 ++ combinedSave))

/-- `scrape_category` (lines 113-166): SEARCH, early exit when no IDs
come back, the `len(item_ids) >= 100 and total > 100 and
subdivide_if_full` window check, then FETCH and SAVE. -/
def scrape_category (o : Oracle) (category_name : String)
    (filters : Filters) (subdivide_if_full : Bool) : List Item × List Event :=
  let s := o.search filters
  if s.1 = [] then ([], [Event.searchReq filters])
  else if 100 ≤ s.1.length ∧ 100 < s.2.2 ∧ subdivide_if_full = true then
    let r := scrape_with_subdivision o category_name filters s.2.2
    (r.1, Event.searchReq filters :: r.2)
  else
    let r := fetchAndSave o category_name s.1 s.2.1
    (r.1, Event.searchReq filters :: r.2)

/-- The mutable state of `scrape_session`: the two sets loaded from the
progress file and updated per category. -/
structure SessionState where
  completed : Finset String
  seen : Finset String
deriving DecidableEq

/-- Lines 347-353: walk the fetched items; a truthy id not yet seen is
added to `seen_item_ids` (`all_items_collected` only feeds the final
print and is not modelled). -/
def seenStep (s : Finset String) (it : Item) : Finset String :=
  match truthyId it with
  | some i => if i ∈ s then s else insert i s
  | none => s

/-- Folding `seenStep` over the fetched items, as lines 347-353 do. -/
def addSeen (seen : Finset String) (items : List Item) : Finset String :=
  items.foldl seenStep seen

/-- One iteration of the session loop (lines 327-366): an already
completed category is skipped entirely (the `continue` also skips the
inter-category sleep); otherwise scrape with subdivision enabled, fold
new ids into `seen_item_ids`, add the name to `completed_categories`,
persist, and sleep unless this is the last category. -/
def sessionStep (o : Oracle) (st : SessionState) (isLast : Bool)
    (cat : String × Filters) : SessionState × List Event :=
  if cat.1 ∈ st.completed then (st, [])
  else
    let r := scrape_category o cat.1 cat.2 true
    let seen := addSeen st.seen r.1
    let completed := insert cat.1 st.completed
    let tail := if isLast then [] else [Event.sleep DELAY_BETWEEN_SEARCHES]
    (⟨completed, seen⟩, r.2 ++ [Event.persist completed seen] ++ tail)

/-- The category loop of `scrape_session`, returning the final state
and each category's event list, in order. -/
def sessionLoop (o : Oracle) :
    SessionState → List (String × Filters) → SessionState × List (List Event)
  | st, [] => (st, [])
  | st, c :: rest =>
      let r := sessionStep o st rest.isEmpty c
      let rr := sessionLoop o r.1 rest
      (rr.1, r.2 :: rr.2)

/-- `scrape_session` (lines 307-376): load the progress file (a parse
error propagates uncaught) and run the category loop from the loaded
state. -/
def scrape_session (o : Oracle) (pf : ProgressFile)
    (categories : List (String × Filters)) :
    Except Unit (SessionState × List (List Event)) :=
  match load_progress pf with
  | Except.error e => Except.error e
  | Except.ok c => Except.ok (sessionLoop o ⟨c.1, c.2⟩ categories)

/-- A candidate file in `OUTPUT_DIR` as `create_master_file` sees it:
its name and the `items` list of its JSON body. -/
structure DirFile where
  filename : String
  items : List Item
deriving DecidableEq

/-- Python `str.endswith`, modelled on the character list. -/
def strEndsWith (s post : String) : Bool := post.data.isSuffixOf s.data

/-- Python `str.startswith`, modelled on the character list. -/
def strStartsWith (s pre : String) : Bool := pre.data.isPrefixOf s.data

/-- The scan filter of line 384: `filename.endswith('.json') and
filename != 'progress.json' and not filename.startswith('MASTER')`. -/
def scannedFile (filename : String) : Bool :=
  strEndsWith filename (".json") && !(filename == ("progress.json")) &&
    !(strStartsWith filename ("MASTER"))

/-- The accumulation of lines 389-393: `(all_items, seen_ids)` updated
per item — an item with a truthy, unseen id is appended and its id
remembered; all other items are dropped. -/
def masterStep (acc : List Item × Finset String) (it : Item) :
    List Item × Finset String :=
  match truthyId it with
  | some i => if i ∈ acc.2 then acc else (acc.1 ++ [it], insert i acc.2)
  | none => acc

/-- `create_master_file` (lines 378-406): scan the directory listing in
enumeration order, keep only files passing the filter, accumulate the
deduplicated items, and name the master file after the final count. -/
def create_master_file (dir : List DirFile) : List Item × String :=
  let r :=
    dir.foldl
      (fun acc f =>
        if scannedFile f.filename then f.items.foldl masterStep acc else acc)
      ([], ∅)
  (r.1, OUTPUT_DIR ++ ("/MASTER_") ++ toString r.1.length ++ ("_items.json"))

/-- The items of the files `create_master_file` actually scans, in
enumeration order. -/
def scannedItems (dir : List DirFile) : List Item :=
  ((dir.filter (fun f => scannedFile f.filename)).map DirFile.items).flatten

/-- Recursive form of the master-file dedup (first occurrence of each
truthy id wins, falsy ids are dropped). -/
def dedupeById (seen : Finset String) : List Item → List Item
  | [] => []
  | it :: rest =>
      match truthyId it with
      | some i =>
          if i ∈ seen then dedupeById seen rest
          else it :: dedupeById (insert i seen) rest
      | none => dedupeById seen rest

/-- The seen-id set after the master-file dedup has walked a list. -/
def dedupeSeen (seen : Finset String) : List Item → Finset String
  | [] => seen
  | it :: rest =>
      match truthyId it with
      | some i =>
          if i ∈ seen then dedupeSeen seen rest
          else dedupeSeen (insert i seen) rest
      | none => dedupeSeen seen rest

/-- Event classifier: file writes. -/
def isWrite : Event → Bool
  | Event.writeFile _ => true
  | _ => false

/-- Event classifier: entry into the subdivision strategy. -/
def isSub : Event → Bool
  | Event.subdivide _ => true
  | _ => false

/-- Event classifier: fetch requests. -/
def isFetchReq : Event → Bool
  | Event.fetchReq _ _ => true
  | _ => false

/-- Event classifier: progress persists. -/
def isPersist : Event → Bool
  | Event.persist _ _ => true
  | _ => false

/-- The files written in an event log, in order. -/
def writesOf (evs : List Event) : List FileOut :=
  evs.filterMap
    (fun e =>
      match e with
      | Event.writeFile f => some f
      | _ => none)

/-- One level-range sub-scrape as the subdivision loop performs it:
`scrape_category({name}_ilvl{lo}-{hi}, filters + ilvl bound,
subdivide_if_full=False)`. -/
def subScrape (o : Oracle) (category_name : String) (f : Filters)
    (p : Nat × Nat) : List Item × List Event :=
  scrape_category_noSub o
    (category_name ++ ("_ilvl") ++ toString p.1 ++ ("-") ++ toString p.2)
    (addIlvl f p.1 p.2)

/-- A network on which every search comes back empty. -/
def emptySearchOracle : Oracle where
  search := fun _ => ([], "", 0)
  fetch := fun _ _ => none

/-- A network on which every search finds one ID and every fetch
returns that one item. -/
def oneItemOracle : Oracle where
  search := fun _ => ([("id1")], ("q"), 1)
  fetch := fun _ _ => some ⟨[⟨some ("id1"), 0⟩]⟩

/-- A network that triggers subdivision at the top level (100 IDs,
total 150) and on which exactly one level range (1-20) yields one
item. -/
def cexSubOracle : Oracle where
  search := fun f =>
    match f.ilvl with
    | none => (List.replicate 100 ("a"), ("q"), 150)
    | some p => if p = (1, 20) then ([("x1")], ("q1"), 1) else ([], "", 0)
  fetch := fun _ q =>
    if q = ("q1") then some ⟨[⟨some ("x1"), 0⟩]⟩ else none

/-! ## Theorems -/

theorem search_replicate_rateLimited (k : Nat) (rs : List (HResp SearchData)) :
    search_items_with_filters (List.replicate k HResp.rateLimited ++ rs) =
      ((search_items_with_filters rs).1,
       ((search_items_with_filters rs).2.1 + k,
        (search_items_with_filters rs).2.2 + 60 * k)) := by
  induction k with
  | zero => simp
  | succ n ih =>
      rw [List.replicate_succ, List.cons_append]
      simp only [search_items_with_filters, ih, Prod.mk.injEq]
      exact ⟨trivial, by omega, by omega⟩

theorem fetch_go_replicate_rateLimited (k : Nat) (rs : List (HResp FetchData)) :
    fetch_items_batch_go (List.replicate k HResp.rateLimited ++ rs) =
      ((fetch_items_batch_go rs).1,
       ((fetch_items_batch_go rs).2.1 + k,
        (fetch_items_batch_go rs).2.2 + 60 * k)) := by
  induction k with
  | zero => simp
  | succ n ih =>
      rw [List.replicate_succ, List.cons_append]
      simp only [fetch_items_batch_go, ih, Prod.mk.injEq]
      exact ⟨trivial, by omega, by omega⟩

/-- C6: for both clients, HTTP 200 yields the parsed result; each 429
sleeps 60 s and reissues the identical request exactly once, with no
retry cap; any other status or a transport exception yields the empty
result with no retry.  Concretely: after `k` consecutive 429s, `k + 1`
requests are issued and `60 * k` seconds are slept, and the outcome is
that of the terminal response alone. -/
theorem http_status_retry (k : Nat) (d : SearchData) (fd : FetchData)
    (code : Nat) (ids : List String) (rest : List (HResp SearchData))
    (frest : List (HResp FetchData)) (hids : ids ≠ []) :
    search_items_with_filters
        (List.replicate k HResp.rateLimited ++ HResp.ok d :: rest) =
      ((d.result, d.id, d.total), (k + 1, 60 * k)) ∧
    search_items_with_filters
        (List.replicate k HResp.rateLimited ++ HResp.otherStatus code :: rest) =
      (([], "", 0), (k + 1, 60 * k)) ∧
    search_items_with_filters
        (List.replicate k HResp.rateLimited ++ HResp.exception :: rest) =
      (([], "", 0), (k + 1, 60 * k)) ∧
    fetch_items_batch ids
        (List.replicate k HResp.rateLimited ++ HResp.ok fd :: frest) =
      (some fd, (k + 1, 60 * k)) ∧
    fetch_items_batch ids
        (List.replicate k HResp.rateLimited ++ HResp.otherStatus code :: frest) =
      (none, (k + 1, 60 * k)) ∧
    fetch_items_batch ids
        (List.replicate k HResp.rateLimited ++ HResp.exception :: frest) =
      (none, (k + 1, 60 * k)) := by
  refine ⟨?_, ?_, ?_, ?_, ?_, ?_⟩ <;>
    simp [search_replicate_rateLimited, fetch_go_replicate_rateLimited,
      fetch_items_batch, hids, search_items_with_filters, fetch_items_batch_go,
      Nat.add_comm]

/-- Witness for C6 at `k = 2`: two 429s make three requests and 120
seconds of sleep, then the terminal response decides the outcome. -/
theorem http_status_retry_witness :
    search_items_with_filters
        (List.replicate 2 HResp.rateLimited ++
          HResp.ok (SearchData.mk 7 [("i1")] ("qtok")) :: []) =
      (([("i1")], ("qtok"), 7), (3, 120)) ∧
    search_items_with_filters
        (List.replicate 2 HResp.rateLimited ++ HResp.otherStatus 500 :: []) =
      (([], "", 0), (3, 120)) ∧
    search_items_with_filters
        (List.replicate 2 HResp.rateLimited ++ HResp.exception :: []) =
      (([], "", 0), (3, 120)) ∧
    fetch_items_batch [("a")]
        (List.replicate 2 HResp.rateLimited ++
          HResp.ok (FetchData.mk []) :: []) =
      (some (FetchData.mk []), (3, 120)) ∧
    fetch_items_batch [("a")]
        (List.replicate 2 HResp.rateLimited ++ HResp.otherStatus 500 :: []) =
      (none, (3, 120)) ∧
    fetch_items_batch [("a")]
        (List.replicate 2 HResp.rateLimited ++ HResp.exception :: []) =
      (none, (3, 120)) :=
  http_status_retry 2 (SearchData.mk 7 [("i1")] ("qtok")) (FetchData.mk [])
    500 [("a")] [] [] (by decide)

theorem batchesOf_nil : batchesOf [] = [] := rfl

theorem batchesOf_cons (ids : List String) (h : ids ≠ []) :
    batchesOf ids =
      ids.take ITEMS_PER_FETCH :: batchesOf (ids.drop ITEMS_PER_FETCH) := by
  have hlen : 0 < ids.length := List.length_pos.mpr h
  simp only [batchesOf, List.length_drop, ITEMS_PER_FETCH]
  have h1 : ids.length + 10 - 1 = (ids.length - 1) + 10 := by omega
  rw [h1, Nat.add_div_right _ (by omega), List.range_succ_eq_map, List.map_cons,
    List.map_map]
  have h2 : (ids.length - 10 + 10 - 1) / 10 = (ids.length - 1) / 10 := by
    rcases Nat.lt_or_ge ids.length 10 with hl | hl
    · have e0 : ids.length - 10 = 0 := by omega
      rw [e0, Nat.div_eq_of_lt (by omega), Nat.div_eq_of_lt (by omega)]
    · congr 1
      omega
  rw [h2]
  refine congrArg₂ _ (by simp) ?_
  refine List.map_congr_left ?_
  intro i _
  simp only [Function.comp_apply]
  rw [List.drop_drop]
  congr 2
  omega

theorem batchesOf_flatten (ids : List String) : (batchesOf ids).flatten = ids := by
  rcases eq_or_ne ids [] with h | h
  · subst h
    rfl
  · rw [batchesOf_cons ids h, List.flatten_cons,
      batchesOf_flatten (ids.drop ITEMS_PER_FETCH)]
    exact List.take_append_drop _ ids
termination_by ids.length
decreasing_by
  simp only [List.length_drop, ITEMS_PER_FETCH]
  have := List.length_pos.mpr h
  omega

theorem batchesOf_mem (ids : List String) :
    ∀ b ∈ batchesOf ids,
      b ≠ [] ∧ b.length ≤ ITEMS_PER_FETCH ∧ b.take ITEMS_PER_FETCH = b := by
  rcases eq_or_ne ids [] with h | h
  · subst h
    intro b hb
    simp [batchesOf_nil] at hb
  · rw [batchesOf_cons ids h]
    intro b hb
    rcases List.mem_cons.mp hb with hb | hb
    · subst hb
      have hl : (ids.take ITEMS_PER_FETCH).length ≤ ITEMS_PER_FETCH := by
        simp [List.length_take]
      refine ⟨?_, hl, List.take_of_length_le hl⟩
      have hpos := List.length_pos.mpr h
      intro he
      have hz : (ids.take ITEMS_PER_FETCH).length = 0 := by rw [he]; rfl
      simp only [List.length_take, ITEMS_PER_FETCH] at hz
      omega
    · exact batchesOf_mem (ids.drop ITEMS_PER_FETCH) b hb
termination_by ids.length
decreasing_by
  simp only [List.length_drop, ITEMS_PER_FETCH]
  have := List.length_pos.mpr h
  omega

theorem batchesOf_full_sizes (ids : List String) :
    ∀ i, i + 1 < (batchesOf ids).length →
      ((batchesOf ids).getD i []).length = ITEMS_PER_FETCH := by
  rcases eq_or_ne ids [] with h | h
  · subst h
    intro i hi
    simp [batchesOf_nil] at hi
  · rw [batchesOf_cons ids h]
    intro i hi
    cases i with
    | zero =>
        simp only [List.getD_cons_zero, List.length_take, ITEMS_PER_FETCH]
        simp only [List.length_cons] at hi
        have hne : batchesOf (ids.drop ITEMS_PER_FETCH) ≠ [] := by
          intro he
          rw [he] at hi
          simp at hi
        have hd : ids.drop ITEMS_PER_FETCH ≠ [] := by
          intro he
          rw [he, batchesOf_nil] at hne
          exact hne rfl
        have : 0 < (ids.drop ITEMS_PER_FETCH).length := List.length_pos.mpr hd
        simp only [List.length_drop, ITEMS_PER_FETCH] at this
        omega
    | succ j =>
        simp only [List.getD_cons_succ]
        refine batchesOf_full_sizes (ids.drop ITEMS_PER_FETCH) j ?_
        simp only [List.length_cons] at hi
        omega
termination_by ids.length
decreasing_by
  all_goals
    simp only [List.length_drop, ITEMS_PER_FETCH]
    have := List.length_pos.mpr h
    omega

theorem fetchBatches_spec (o : Oracle) (q : String) (bs : List (List String)) :
    (fetchBatches o q bs).1 = (bs.map (fun b => fetchResult o b q)).flatten ∧
    (fetchBatches o q bs).2 =
      List.intersperse (Event.sleep DELAY_BETWEEN_FETCHES)
        (bs.map (fun b => Event.fetchReq (b.take ITEMS_PER_FETCH) q)) := by
  induction bs with
  | nil => exact ⟨rfl, rfl⟩
  | cons b rest ih =>
      cases rest with
      | nil => simp [fetchBatches]
      | cons b2 r2 =>
          simp only [fetchBatches, List.map_cons, List.flatten_cons,
            List.intersperse_cons_cons]
          simp only [List.map_cons] at ih
          exact ⟨by rw [ih.1, List.flatten_cons], by rw [ih.2]⟩

/-- C8: the Fetch phase partitions the ordered ID list into consecutive
batches of size `ITEMS_PER_FETCH = 10` (the last batch possibly
smaller but never empty), issues exactly one request per batch in
order, concatenates the batches' results in batch order (a failed
batch contributing nothing), and sleeps the fixed inter-batch delay
after every batch except the last. -/
theorem fetch_batching_spec (o : Oracle) (category_name : String)
    (ids : List String) (q : String) :
    (batchesOf ids).flatten = ids ∧
    (∀ b ∈ batchesOf ids,
      b ≠ [] ∧ b.length ≤ ITEMS_PER_FETCH ∧ b.take ITEMS_PER_FETCH = b) ∧
    (∀ i, i + 1 < (batchesOf ids).length →
      ((batchesOf ids).getD i []).length = ITEMS_PER_FETCH) ∧
    (fetchAndSave o category_name ids q).1 =
      ((batchesOf ids).map (fun b => fetchResult o b q)).flatten ∧
    (fetchAndSave o category_name ids q).2 =
      List.intersperse (Event.sleep DELAY_BETWEEN_FETCHES)
        ((batchesOf ids).map (fun b => Event.fetchReq b q)) ++
      saveEvents category_name (fetchAndSave o category_name ids q).1 := by
  refine ⟨batchesOf_flatten ids, batchesOf_mem ids, batchesOf_full_sizes ids,
    ?_, ?_⟩
  · exact (fetchBatches_spec o q (batchesOf ids)).1
  · have hmap :
        (batchesOf ids).map (fun b => Event.fetchReq (b.take ITEMS_PER_FETCH) q) =
        (batchesOf ids).map (fun b => Event.fetchReq b q) := by
      refine List.map_congr_left ?_
      intro b hb
      rw [(batchesOf_mem ids b hb).2.2]
    show (fetchBatches o q (batchesOf ids)).2 ++ _ = _
    rw [(fetchBatches_spec o q (batchesOf ids)).2, hmap]
    rfl

/-- Witness for C8 on a concrete 11-ID list: the partition flattens
back to the list, the non-final batch has size 10, and the result is
the in-order concatenation of the per-batch fetches. -/
theorem fetch_batching_spec_witness :
    (batchesOf (List.replicate 11 ("a"))).flatten = List.replicate 11 ("a") ∧
    ((batchesOf (List.replicate 11 ("a"))).getD 0 []).length =
      ITEMS_PER_FETCH := by
  have h := fetch_batching_spec ⟨fun _ => ([], "", 0), fun _ _ => none⟩
    ("cat") (List.replicate 11 ("a")) ("q")
  exact ⟨h.1, h.2.2.1 0 (by decide)⟩

/-- C1 counterexample: on a corrupt progress file, `load_progress` does
not return the empty state — `json.load`'s parse error propagates. -/
theorem load_progress_corrupt_not_empty :
    load_progress ProgressFile.corrupt ≠
      Except.ok ((∅ : Finset String), (∅ : Finset String)) := by
  simp [load_progress]

/-- C1 (amended): `load_progress` returns the persisted state when the
progress file exists and is valid and the empty state when it is
missing; a corrupt file, however, raises (the parse error propagates)
instead of failing open. -/
theorem load_progress_amended_spec (c s : List String) :
    load_progress ProgressFile.missing =
      Except.ok ((∅ : Finset String), (∅ : Finset String)) ∧
    load_progress (ProgressFile.valid c s) =
      Except.ok (c.toFinset, s.toFinset) ∧
    load_progress ProgressFile.corrupt = Except.error () :=
  ⟨rfl, rfl, rfl⟩

/-- C10: saving the two progress sets and immediately loading them back
returns exactly the sets that were saved, even though `save_progress`
serialises them as JSON lists. -/
theorem progress_roundtrip (completed seen : Finset String) :
    load_progress (save_progress completed seen) =
      Except.ok (completed, seen) := by
  simp [load_progress, save_progress, Finset.sort_toFinset]

theorem writesOf_append (a b : List Event) :
    writesOf (a ++ b) = writesOf a ++ writesOf b :=
  List.filterMap_append a b _

theorem filterMap_intersperse_none {α β : Type} (f : α → Option β) (sep : α)
    (hsep : f sep = none) :
    ∀ l : List α, (∀ a ∈ l, f a = none) →
      (List.intersperse sep l).filterMap f = []
  | [], _ => rfl
  | [a], hl => by
      simp [List.intersperse_singleton, List.filterMap_cons, hl a (by simp)]
  | a :: b :: u, hl => by
      rw [List.intersperse_cons_cons, List.filterMap_cons, List.filterMap_cons,
        hl a (by simp), hsep]
      exact filterMap_intersperse_none f sep hsep (b :: u)
        (fun x hx => hl x (List.mem_cons_of_mem a hx))

theorem filter_intersperse_false {α : Type} (p : α → Bool) (sep : α)
    (hsep : p sep = false) :
    ∀ l : List α, (∀ a ∈ l, p a = false) →
      (List.intersperse sep l).filter p = []
  | [], _ => rfl
  | [a], hl => by
      simp [List.intersperse_singleton, List.filter_cons, hl a (by simp)]
  | a :: b :: u, hl => by
      rw [List.intersperse_cons_cons, List.filter_cons, List.filter_cons,
        hl a (by simp), hsep]
      exact filter_intersperse_false p sep hsep (b :: u)
        (fun x hx => hl x (List.mem_cons_of_mem a hx))

theorem fetchBatches_no_writes (o : Oracle) (q : String)
    (bs : List (List String)) : writesOf (fetchBatches o q bs).2 = [] := by
  rw [(fetchBatches_spec o q bs).2]
  refine filterMap_intersperse_none _ _ rfl _ ?_
  intro e he
  rcases List.mem_map.mp he with ⟨b, _, rfl⟩
  rfl

theorem fetchBatches_no_subs (o : Oracle) (q : String)
    (bs : List (List String)) : (fetchBatches o q bs).2.filter isSub = [] := by
  rw [(fetchBatches_spec o q bs).2]
  refine filter_intersperse_false _ _ rfl _ ?_
  intro e he
  rcases List.mem_map.mp he with ⟨b, _, rfl⟩
  rfl

theorem writesOf_saveEvents (n : String) (its : List Item) :
    writesOf (saveEvents n its) =
      (if its = [] then []
       else [⟨OUTPUT_DIR ++ ("/") ++ safe_name n ++ (".json"), n,
              its.length, false, its⟩]) := by
  by_cases h : its = [] <;> simp [saveEvents, writesOf, h]

theorem saveEvents_no_subs (n : String) (its : List Item) :
    (saveEvents n its).filter isSub = [] := by
  by_cases h : its = [] <;> simp [saveEvents, h, isSub]

theorem writesOf_cons_searchReq (f : Filters) (evs : List Event) :
    writesOf (Event.searchReq f :: evs) = writesOf evs := rfl

theorem writesOf_cons_subdivide (n : String) (evs : List Event) :
    writesOf (Event.subdivide n :: evs) = writesOf evs := rfl

theorem filter_isSub_cons_searchReq (f : Filters) (evs : List Event) :
    (Event.searchReq f :: evs).filter isSub = evs.filter isSub := rfl

theorem scrape_category_empty (o : Oracle) (n : String) (f : Filters)
    (flag : Bool) (h : (o.search f).1 = []) :
    scrape_category o n f flag = ([], [Event.searchReq f]) := by
  simp [scrape_category, h]

theorem scrape_category_noSub_empty (o : Oracle) (n : String) (f : Filters)
    (h : (o.search f).1 = []) :
    scrape_category_noSub o n f = ([], [Event.searchReq f]) := by
  simp [scrape_category_noSub, h]

theorem scrape_category_sub (o : Oracle) (n : String) (f : Filters)
    (h1 : 100 ≤ (o.search f).1.length) (h2 : 100 < (o.search f).2.2) :
    scrape_category o n f true =
      ((scrape_with_subdivision o n f (o.search f).2.2).1,
       Event.searchReq f ::
         (scrape_with_subdivision o n f (o.search f).2.2).2) := by
  have hne : (o.search f).1 ≠ [] := by
    intro he
    rw [he] at h1
    simp at h1
  simp [scrape_category, hne, h1, h2]

theorem scrape_category_fetch (o : Oracle) (n : String) (f : Filters)
    (flag : Bool) (hne : (o.search f).1 ≠ [])
    (hc : ¬(100 ≤ (o.search f).1.length ∧ 100 < (o.search f).2.2 ∧
            flag = true)) :
    scrape_category o n f flag =
      ((fetchAndSave o n (o.search f).1 (o.search f).2.1).1,
       Event.searchReq f ::
         (fetchAndSave o n (o.search f).1 (o.search f).2.1).2) := by
  simp only [scrape_category]
  rw [if_neg hne, if_neg hc]

theorem scrape_category_noSub_fetch (o : Oracle) (n : String) (f : Filters)
    (hne : (o.search f).1 ≠ []) :
    scrape_category_noSub o n f =
      ((fetchAndSave o n (o.search f).1 (o.search f).2.1).1,
       Event.searchReq f ::
         (fetchAndSave o n (o.search f).1 (o.search f).2.1).2) := by
  simp only [scrape_category_noSub]
  rw [if_neg hne]

theorem scrape_category_false_eq (o : Oracle) (n : String) (f : Filters) :
    scrape_category o n f false = scrape_category_noSub o n f := by
  by_cases h : (o.search f).1 = []
  · rw [scrape_category_empty o n f false h, scrape_category_noSub_empty o n f h]
  · rw [scrape_category_fetch o n f false h (by simp),
      scrape_category_noSub_fetch o n f h]

theorem scrape_category_noSub_writes (o : Oracle) (n : String) (f : Filters) :
    writesOf (scrape_category_noSub o n f).2 =
      (if (scrape_category_noSub o n f).1 = [] then []
       else [⟨OUTPUT_DIR ++ ("/") ++ safe_name n ++ (".json"), n,
              (scrape_category_noSub o n f).1.length, false,
              (scrape_category_noSub o n f).1⟩]) := by
  by_cases h : (o.search f).1 = []
  · rw [scrape_category_noSub_empty o n f h]
    simp [writesOf]
  · rw [scrape_category_noSub_fetch o n f h]
    show writesOf (Event.searchReq f :: (_ ++ saveEvents n _)) = _
    rw [writesOf_cons_searchReq, writesOf_append, fetchBatches_no_writes,
      writesOf_saveEvents]
    rfl

theorem scrape_category_noSub_no_subs (o : Oracle) (n : String) (f : Filters) :
    (scrape_category_noSub o n f).2.filter isSub = [] := by
  by_cases h : (o.search f).1 = []
  · rw [scrape_category_noSub_empty o n f h]
    simp [isSub]
  · rw [scrape_category_noSub_fetch o n f h]
    show (Event.searchReq f :: (_ ++ saveEvents n _)).filter isSub = []
    rw [filter_isSub_cons_searchReq, List.filter_append,
      fetchBatches_no_subs, saveEvents_no_subs]
    rfl

theorem subdivisionLoop_items (o : Oracle) (n : String) (f : Filters) :
    ∀ ps : List (Nat × Nat),
      (subdivisionLoop o n f ps).1 =
        (ps.map (fun p => (subScrape o n f p).1)).flatten
  | [] => rfl
  | (lo, hi) :: rest => by
      simp only [subdivisionLoop, List.map_cons, List.flatten_cons]
      rw [subdivisionLoop_items o n f rest]
      rfl

theorem subdivisionLoop_writes (o : Oracle) (n : String) (f : Filters) :
    ∀ ps : List (Nat × Nat),
      writesOf (subdivisionLoop o n f ps).2 =
        (ps.map (fun p => writesOf (subScrape o n f p).2)).flatten
  | [] => rfl
  | (lo, hi) :: rest => by
      simp only [subdivisionLoop, List.map_cons, List.flatten_cons]
      rw [writesOf_append, writesOf_append, subdivisionLoop_writes o n f rest,
        show writesOf [Event.sleep 2] = [] from rfl, List.append_nil]
      rfl

theorem subdivisionLoop_no_subs (o : Oracle) (n : String) (f : Filters) :
    ∀ ps : List (Nat × Nat),
      (subdivisionLoop o n f ps).2.filter isSub = []
  | [] => rfl
  | (lo, hi) :: rest => by
      simp only [subdivisionLoop]
      rw [List.filter_append, List.filter_append,
        subdivisionLoop_no_subs o n f rest, scrape_category_noSub_no_subs]
      rfl

theorem scrape_with_subdivision_spec (o : Oracle) (n : String) (f : Filters)
    (t : Nat) :
    (scrape_with_subdivision o n f t).1 =
      (level_ranges.map (fun p => (subScrape o n f p).1)).flatten ∧
    writesOf (scrape_with_subdivision o n f t).2 =
      (level_ranges.map (fun p => writesOf (subScrape o n f p).2)).flatten ++
        (if (scrape_with_subdivision o n f t).1 = [] then []
         else [⟨OUTPUT_DIR ++ ("/") ++ safe_name n ++ ("_COMBINED.json"), n,
                (scrape_with_subdivision o n f t).1.length, true,
                (scrape_with_subdivision o n f t).1⟩]) ∧
    ((scrape_with_subdivision o n f t).2.filter isSub).length = 1 := by
  refine ⟨subdivisionLoop_items o n f level_ranges, ?_, ?_⟩
  · show writesOf (Event.subdivide n :: _) = _
    rw [writesOf_cons_subdivide, writesOf_append,
      subdivisionLoop_writes o n f level_ranges]
    by_cases h : (subdivisionLoop o n f level_ranges).1 = [] <;>
      simp only [scrape_with_subdivision, h, if_true, if_false, writesOf,
        List.filterMap_nil, List.filterMap_cons, reduceIte]
  · show ((Event.subdivide n :: _).filter isSub).length = 1
    rw [List.filter_cons]
    simp only [isSub, if_true, List.filter_append,
      subdivisionLoop_no_subs o n f level_ranges]
    by_cases h : (subdivisionLoop o n f level_ranges).1 = [] <;>
      simp [scrape_with_subdivision, h, saveEvents_no_subs, isSub]

/-- C2 counterexample: on a network where subdivision triggers (100 IDs
returned, total 150) and the 1-20 level range yields one item, TWO
output files are written for the category — the `_ilvl1-20` sub-file
and the combined file — not a single one. -/
theorem subdivision_writes_extra_files :
    (cexSubOracle.search ⟨none, 0⟩).1.length = 100 ∧
    100 < (cexSubOracle.search ⟨none, 0⟩).2.2 ∧
    ¬ ((writesOf (scrape_category cexSubOracle ("Cat") ⟨none, 0⟩ true).2).length
        = 1) := by
  refine ⟨by decide, by decide, by decide⟩

/-- C2 (amended): when subdivision triggers (returned IDs = 100 and
total > 100), the pipeline recurses exactly one level deep over the ten
fixed item-level ranges (exactly one subdivision entry in the log, none
from the sub-scrapes); its result is the concatenation of the ten
sub-fetches and its item count their sum; a combined file tagged
`subdivided=true` with that item count is written when the combined
list is nonempty (none when empty); but in addition each sub-range
whose own fetch yields items writes its own per-sub-category file, so
the combined file need not be the only output file of the category. -/
theorem subdivision_amended_spec (o : Oracle) (n : String) (f : Filters)
    (h1 : (o.search f).1.length = 100) (h2 : 100 < (o.search f).2.2) :
    ((scrape_category o n f true).2.filter isSub).length = 1 ∧
    (scrape_category o n f true).1 =
      (level_ranges.map (fun p => (subScrape o n f p).1)).flatten ∧
    (scrape_category o n f true).1.length =
      (level_ranges.map (fun p => (subScrape o n f p).1.length)).sum ∧
    writesOf (scrape_category o n f true).2 =
      (level_ranges.map (fun p => writesOf (subScrape o n f p).2)).flatten ++
        (if (scrape_category o n f true).1 = [] then []
         else [⟨OUTPUT_DIR ++ ("/") ++ safe_name n ++ ("_COMBINED.json"), n,
                (scrape_category o n f true).1.length, true,
                (scrape_category o n f true).1⟩]) ∧
    (∀ fo ∈ (level_ranges.map
        (fun p => writesOf (subScrape o n f p).2)).flatten,
      fo.subdivided = false) := by
  have hsub := scrape_category_sub o n f (by omega) h2
  have hs := scrape_with_subdivision_spec o n f (o.search f).2.2
  rw [hsub]
  refine ⟨?_, hs.1, ?_, ?_, ?_⟩
  · show ((Event.searchReq f :: _).filter isSub).length = 1
    rw [filter_isSub_cons_searchReq]
    exact hs.2.2
  · rw [hs.1, List.length_flatten, List.map_map]
    rfl
  · show writesOf (Event.searchReq f :: _) = _
    rw [writesOf_cons_searchReq]
    exact hs.2.1
  · intro fo hfo
    rcases List.mem_flatten.mp hfo with ⟨l, hl, hfol⟩
    rcases List.mem_map.mp hl with ⟨p, _, rfl⟩
    have hw := scrape_category_noSub_writes o
      (n ++ ("_ilvl") ++ toString p.1 ++ ("-") ++ toString p.2)
      (addIlvl f p.1 p.2)
    rw [subScrape] at hfol
    rw [hw] at hfol
    rcases eq_or_ne (scrape_category_noSub o
        (n ++ ("_ilvl") ++ toString p.1 ++ ("-") ++ toString p.2)
        (addIlvl f p.1 p.2)).1 [] with he | he
    · rw [if_pos he] at hfol
      simp at hfol
    · rw [if_neg he] at hfol
      rcases List.mem_singleton.mp hfol with rfl
      rfl

/-- Witness for C2 (amended) on the concrete subdivision oracle. -/
theorem subdivision_amended_spec_witness :
    ((scrape_category cexSubOracle ("Cat2") ⟨none, 0⟩ true).2.filter
      isSub).length = 1 ∧
    (scrape_category cexSubOracle ("Cat2") ⟨none, 0⟩ true).1.length =
      (level_ranges.map
        (fun p => (subScrape cexSubOracle ("Cat2") ⟨none, 0⟩ p).1.length)).sum :=
  ⟨(subdivision_amended_spec cexSubOracle ("Cat2") ⟨none, 0⟩ (by decide)
      (by decide)).1,
   (subdivision_amended_spec cexSubOracle ("Cat2") ⟨none, 0⟩ (by decide)
      (by decide)).2.2.1⟩

theorem fetchBatches_length_le (o : Oracle) (q : String) (ids : List String)
    (hb : ∀ b q2, (fetchResult o b q2).length ≤ b.length) :
    (fetchBatches o q (batchesOf ids)).1.length ≤ ids.length := by
  rw [(fetchBatches_spec o q (batchesOf ids)).1, List.length_flatten,
    List.map_map]
  have h1 : ((batchesOf ids).map
      (fun b => (fetchResult o b q).length)).sum ≤
      ((batchesOf ids).map List.length).sum := by
    refine List.sum_le_sum ?_
    intro b _
    exact hb b q
  calc ((batchesOf ids).map (List.length ∘ fun b => fetchResult o b q)).sum
      ≤ ((batchesOf ids).map List.length).sum := h1
    _ = (batchesOf ids).flatten.length := (List.length_flatten _).symm
    _ = ids.length := by rw [batchesOf_flatten]

/-- C3 counterexample: a category whose search reports
`total_count = 0 ≤ 100` produces NO output file at all (the claimed
"exactly one output file" fails on empty results). -/
theorem small_total_zero_files :
    (emptySearchOracle.search ⟨none, 0⟩).2.2 ≤ 100 ∧
    ¬ ((writesOf (scrape_category emptySearchOracle ("Rare_0-1c") ⟨none, 0⟩
        true).2).length = 1) := by
  refine ⟨by decide, by decide⟩

/-- C3 (amended): for a category whose search reports
`total_count ≤ 100`, no subdivision occurs and AT MOST one output file
is produced — exactly one when the fetched item list is nonempty, none
when it is empty; when every batch fetch returns at most as many items
as the batch holds and the search returns at most `total_count` IDs,
the item count is at most `total_count`.  Moreover, for any search
outcome, subdivision is entered only when the returned ID count
reaches 100, the reported total exceeds 100, and subdivision is
enabled. -/
theorem small_total_amended_spec (o : Oracle) (n : String) (f : Filters)
    (flag : Bool) :
    ((o.search f).2.2 ≤ 100 →
      ((scrape_category o n f flag).2.filter isSub = [] ∧
       writesOf (scrape_category o n f flag).2 =
         (if (scrape_category o n f flag).1 = [] then []
          else [⟨OUTPUT_DIR ++ ("/") ++ safe_name n ++ (".json"), n,
                 (scrape_category o n f flag).1.length, false,
                 (scrape_category o n f flag).1⟩]) ∧
       (writesOf (scrape_category o n f flag).2).length ≤ 1 ∧
       ((∀ b q2, (fetchResult o b q2).length ≤ b.length) →
         (o.search f).1.length ≤ (o.search f).2.2 →
         (scrape_category o n f flag).1.length ≤ (o.search f).2.2))) ∧
    ((scrape_category o n f flag).2.filter isSub ≠ [] →
      100 ≤ (o.search f).1.length ∧ 100 < (o.search f).2.2 ∧
        flag = true) := by
  constructor
  · intro ht
    have hnc : ¬(100 ≤ (o.search f).1.length ∧ 100 < (o.search f).2.2 ∧
        flag = true) := by
      intro hc
      omega
    by_cases h : (o.search f).1 = []
    · rw [scrape_category_empty o n f flag h]
      refine ⟨rfl, rfl, by simp [writesOf], fun _ _ => by simp⟩
    · rw [scrape_category_fetch o n f flag h hnc]
      have hveq : scrape_category_noSub o n f =
          ((fetchAndSave o n (o.search f).1 (o.search f).2.1).1,
           Event.searchReq f ::
             (fetchAndSave o n (o.search f).1 (o.search f).2.1).2) :=
        scrape_category_noSub_fetch o n f h
      refine ⟨?_, ?_, ?_, ?_⟩
      · have := scrape_category_noSub_no_subs o n f
        rw [hveq] at this
        exact this
      · have := scrape_category_noSub_writes o n f
        rw [hveq] at this
        exact this
      · have := scrape_category_noSub_writes o n f
        rw [hveq] at this
        rw [this]
        by_cases he :
            (fetchAndSave o n (o.search f).1 (o.search f).2.1).1 = [] <;>
          simp [he]
      · intro hb hle
        show (fetchAndSave o n (o.search f).1 (o.search f).2.1).1.length ≤ _
        have : (fetchAndSave o n (o.search f).1 (o.search f).2.1).1.length ≤
            (o.search f).1.length := by
          show (fetchBatches o (o.search f).2.1
            (batchesOf (o.search f).1)).1.length ≤ _
          exact fetchBatches_length_le o (o.search f).2.1 (o.search f).1 hb
        omega
  · intro hsub
    by_cases h : (o.search f).1 = []
    · rw [scrape_category_empty o n f flag h] at hsub
      simp [isSub] at hsub
    · by_cases hc : 100 ≤ (o.search f).1.length ∧ 100 < (o.search f).2.2 ∧
          flag = true
      · exact hc
      · rw [scrape_category_fetch o n f flag h hc] at hsub
        have hveq : scrape_category_noSub o n f =
            ((fetchAndSave o n (o.search f).1 (o.search f).2.1).1,
             Event.searchReq f ::
               (fetchAndSave o n (o.search f).1 (o.search f).2.1).2) :=
          scrape_category_noSub_fetch o n f h
        have := scrape_category_noSub_no_subs o n f
        rw [hveq] at this
        exact absurd this hsub

theorem addSeen_subset (items : List Item) :
    ∀ seen : Finset String, seen ⊆ addSeen seen items := by
  induction items with
  | nil => intro seen x hx; exact hx
  | cons it rest ih =>
      intro seen
      have h1 : addSeen seen (it :: rest) = addSeen (seenStep seen it) rest :=
        rfl
      rw [h1]
      refine Finset.Subset.trans ?_ (ih (seenStep seen it))
      unfold seenStep
      cases truthyId it with
      | none => exact Finset.Subset.refl seen
      | some i =>
          show seen ⊆ if i ∈ seen then seen else insert i seen
          by_cases hi : i ∈ seen
          · rw [if_pos hi]
          · rw [if_neg hi]
            exact Finset.subset_insert i seen

theorem addSeen_mem (items : List Item) :
    ∀ (seen : Finset String) (it : Item), it ∈ items →
      ∀ i, truthyId it = some i → i ∈ addSeen seen items := by
  induction items with
  | nil => intro seen it h; simp at h
  | cons a rest ih =>
      intro seen it hmem i hti
      have h1 : addSeen seen (a :: rest) = addSeen (seenStep seen a) rest :=
        rfl
      rw [h1]
      rcases List.mem_cons.mp hmem with rfl | hmem
      · refine addSeen_subset rest (seenStep seen it) ?_
        unfold seenStep
        rw [hti]
        show i ∈ if i ∈ seen then seen else insert i seen
        by_cases hi : i ∈ seen
        · rw [if_pos hi]
          exact hi
        · rw [if_neg hi]
          exact Finset.mem_insert_self i seen
      · exact ih (seenStep seen a) it hmem i hti

theorem sessionStep_skip (o : Oracle) (st : SessionState) (isLast : Bool)
    (c : String × Filters) (h : c.1 ∈ st.completed) :
    sessionStep o st isLast c = (st, []) := by
  simp [sessionStep, h]

theorem sessionStep_run (o : Oracle) (st : SessionState) (isLast : Bool)
    (c : String × Filters) (h : c.1 ∉ st.completed) :
    sessionStep o st isLast c =
      (⟨insert c.1 st.completed,
        addSeen st.seen (scrape_category o c.1 c.2 true).1⟩,
       (scrape_category o c.1 c.2 true).2 ++
         [Event.persist (insert c.1 st.completed)
           (addSeen st.seen (scrape_category o c.1 c.2 true).1)] ++
         (if isLast then [] else [Event.sleep DELAY_BETWEEN_SEARCHES])) := by
  simp only [sessionStep]
  rw [if_neg h]

theorem sessionStep_mono (o : Oracle) (st : SessionState) (isLast : Bool)
    (c : String × Filters) :
    st.completed ⊆ (sessionStep o st isLast c).1.completed ∧
    st.seen ⊆ (sessionStep o st isLast c).1.seen := by
  by_cases h : c.1 ∈ st.completed
  · rw [sessionStep_skip o st isLast c h]
    exact ⟨Finset.Subset.refl _, Finset.Subset.refl _⟩
  · rw [sessionStep_run o st isLast c h]
    exact ⟨Finset.subset_insert _ _, addSeen_subset _ _⟩

theorem sessionLoop_length (o : Oracle) :
    ∀ (st : SessionState) (cats : List (String × Filters)),
      (sessionLoop o st cats).2.length = cats.length
  | _, [] => rfl
  | st, c :: rest => by
      show ((sessionStep o st rest.isEmpty c).2 ::
        (sessionLoop o (sessionStep o st rest.isEmpty c).1 rest).2).length =
        (c :: rest).length
      rw [List.length_cons, List.length_cons,
        sessionLoop_length o (sessionStep o st rest.isEmpty c).1 rest]

theorem sessionLoop_mono (o : Oracle) :
    ∀ (st : SessionState) (cats : List (String × Filters)),
      st.completed ⊆ (sessionLoop o st cats).1.completed ∧
      st.seen ⊆ (sessionLoop o st cats).1.seen
  | _, [] => ⟨Finset.Subset.refl _, Finset.Subset.refl _⟩
  | st, c :: rest => by
      have h1 := sessionStep_mono o st rest.isEmpty c
      have h2 := sessionLoop_mono o (sessionStep o st rest.isEmpty c).1 rest
      exact ⟨Finset.Subset.trans h1.1 h2.1, Finset.Subset.trans h1.2 h2.2⟩

theorem sessionLoop_skip_get (o : Oracle) :
    ∀ (cats : List (String × Filters)) (init : SessionState) (i : Nat),
      i < cats.length →
      (cats.getD i (("") , ⟨none, 0⟩)).1 ∈ init.completed →
      (sessionLoop o init cats).2.getD i [Event.sleep 0] = []
  | [], _, i, hi, _ => by simp at hi
  | c :: rest, init, 0, _, hm => by
      show ((sessionStep o init rest.isEmpty c).2 ::
        (sessionLoop o (sessionStep o init rest.isEmpty c).1 rest).2).getD 0
        [Event.sleep 0] = []
      rw [List.getD_cons_zero, sessionStep_skip o init rest.isEmpty c hm]
  | c :: rest, init, i + 1, hi, hm => by
      show ((sessionStep o init rest.isEmpty c).2 ::
        (sessionLoop o (sessionStep o init rest.isEmpty c).1 rest).2).getD
        (i + 1) [Event.sleep 0] = []
      rw [List.getD_cons_succ]
      refine sessionLoop_skip_get o rest _ i ?_ ?_
      · simpa using hi
      · exact (sessionStep_mono o init rest.isEmpty c).1 (by simpa using hm)

theorem filter_isPersist_cons_searchReq (f : Filters) (evs : List Event) :
    (Event.searchReq f :: evs).filter isPersist = evs.filter isPersist := rfl

theorem filter_isPersist_cons_subdivide (n : String) (evs : List Event) :
    (Event.subdivide n :: evs).filter isPersist = evs.filter isPersist := rfl

theorem fetchBatches_no_persists (o : Oracle) (q : String)
    (bs : List (List String)) :
    (fetchBatches o q bs).2.filter isPersist = [] := by
  rw [(fetchBatches_spec o q bs).2]
  refine filter_intersperse_false _ _ rfl _ ?_
  intro e he
  rcases List.mem_map.mp he with ⟨b, _, rfl⟩
  rfl

theorem saveEvents_no_persists (n : String) (its : List Item) :
    (saveEvents n its).filter isPersist = [] := by
  by_cases h : its = [] <;> simp [saveEvents, h, isPersist]

theorem scrape_category_noSub_no_persists (o : Oracle) (n : String)
    (f : Filters) : (scrape_category_noSub o n f).2.filter isPersist = [] := by
  by_cases h : (o.search f).1 = []
  · rw [scrape_category_noSub_empty o n f h]
    simp [isPersist]
  · rw [scrape_category_noSub_fetch o n f h]
    show (Event.searchReq f :: (_ ++ saveEvents n _)).filter isPersist = []
    rw [filter_isPersist_cons_searchReq, List.filter_append,
      fetchBatches_no_persists, saveEvents_no_persists]
    rfl

theorem subdivisionLoop_no_persists (o : Oracle) (n : String) (f : Filters) :
    ∀ ps : List (Nat × Nat),
      (subdivisionLoop o n f ps).2.filter isPersist = []
  | [] => rfl
  | (lo, hi) :: rest => by
      simp only [subdivisionLoop]
      rw [List.filter_append, List.filter_append,
        subdivisionLoop_no_persists o n f rest,
        scrape_category_noSub_no_persists]
      rfl

theorem scrape_with_subdivision_no_persists (o : Oracle) (n : String)
    (f : Filters) (t : Nat) :
    (scrape_with_subdivision o n f t).2.filter isPersist = [] := by
  show (Event.subdivide n :: _).filter isPersist = []
  rw [filter_isPersist_cons_subdivide, List.filter_append,
    subdivisionLoop_no_persists o n f level_ranges]
  by_cases h : (subdivisionLoop o n f level_ranges).1 = [] <;>
    simp [scrape_with_subdivision, h, isPersist]

theorem scrape_category_no_persists (o : Oracle) (n : String) (f : Filters)
    (flag : Bool) : (scrape_category o n f flag).2.filter isPersist = [] := by
  by_cases h : (o.search f).1 = []
  · rw [scrape_category_empty o n f flag h]
    simp [isPersist]
  · by_cases hc : 100 ≤ (o.search f).1.length ∧ 100 < (o.search f).2.2 ∧
        flag = true
    · obtain ⟨hl, ht, hf⟩ := hc
      subst hf
      rw [scrape_category_sub o n f hl ht]
      show (Event.searchReq f :: _).filter isPersist = []
      rw [filter_isPersist_cons_searchReq]
      exact scrape_with_subdivision_no_persists o n f _
    · rw [scrape_category_fetch o n f flag h hc]
      show (Event.searchReq f :: (_ ++ saveEvents n _)).filter isPersist = []
      rw [filter_isPersist_cons_searchReq, List.filter_append,
        fetchBatches_no_persists, saveEvents_no_persists]
      rfl

theorem persist_not_mem_of_filter_nil (evs : List Event)
    (h : evs.filter isPersist = []) (c s : Finset String) :
    Event.persist c s ∉ evs := by
  intro hm
  have hmem : Event.persist c s ∈ evs.filter isPersist :=
    List.mem_filter.mpr ⟨hm, rfl⟩
  rw [h] at hmem
  simp at hmem

theorem fetchAndSave_writes (o : Oracle) (n : String) (ids : List String)
    (q : String) :
    writesOf (fetchAndSave o n ids q).2 =
      (if (fetchAndSave o n ids q).1 = [] then []
       else [⟨OUTPUT_DIR ++ ("/") ++ safe_name n ++ (".json"), n,
              (fetchAndSave o n ids q).1.length, false,
              (fetchAndSave o n ids q).1⟩]) := by
  show writesOf (_ ++ saveEvents n _) = _
  rw [writesOf_append, fetchBatches_no_writes, writesOf_saveEvents]
  rfl

theorem scrape_category_write_items (o : Oracle) (n : String) (f : Filters)
    (flag : Bool) :
    ∀ fo ∈ writesOf (scrape_category o n f flag).2, ∀ it ∈ fo.items,
      it ∈ (scrape_category o n f flag).1 := by
  by_cases h : (o.search f).1 = []
  · rw [scrape_category_empty o n f flag h]
    intro fo hfo
    simp [writesOf] at hfo
  · by_cases hc : 100 ≤ (o.search f).1.length ∧ 100 < (o.search f).2.2 ∧
        flag = true
    · obtain ⟨hl, ht, hf⟩ := hc
      subst hf
      have h1 : (scrape_category o n f true).1 =
          (scrape_with_subdivision o n f (o.search f).2.2).1 := by
        rw [scrape_category_sub o n f hl ht]
      have h2 : writesOf (scrape_category o n f true).2 =
          writesOf (scrape_with_subdivision o n f (o.search f).2.2).2 := by
        rw [scrape_category_sub o n f hl ht]
        exact writesOf_cons_searchReq f _
      rw [h1, h2]
      have hs := scrape_with_subdivision_spec o n f (o.search f).2.2
      intro fo hfo it hit
      rw [hs.2.1] at hfo
      rcases List.mem_append.mp hfo with hfo | hfo
      · rcases List.mem_flatten.mp hfo with ⟨l, hl2, hfol⟩
        rcases List.mem_map.mp hl2 with ⟨p, hp, rfl⟩
        unfold subScrape at hfol
        rw [scrape_category_noSub_writes o
          (n ++ ("_ilvl") ++ toString p.1 ++ ("-") ++ toString p.2)
          (addIlvl f p.1 p.2)] at hfol
        rcases eq_or_ne (scrape_category_noSub o
            (n ++ ("_ilvl") ++ toString p.1 ++ ("-") ++ toString p.2)
            (addIlvl f p.1 p.2)).1 [] with he | he
        · rw [if_pos he] at hfol
          simp at hfol
        · rw [if_neg he] at hfol
          rcases List.mem_singleton.mp hfol with rfl
          rw [hs.1]
          refine List.mem_flatten.mpr ⟨(subScrape o n f p).1, ?_, hit⟩
          exact List.mem_map_of_mem _ hp
      · by_cases he : (scrape_with_subdivision o n f (o.search f).2.2).1 = []
        · rw [if_pos he] at hfo
          simp at hfo
        · rw [if_neg he] at hfo
          rcases List.mem_singleton.mp hfo with rfl
          exact hit
    · have h1 : (scrape_category o n f flag).1 =
          (fetchAndSave o n (o.search f).1 (o.search f).2.1).1 := by
        rw [scrape_category_fetch o n f flag h hc]
      have h2 : writesOf (scrape_category o n f flag).2 =
          writesOf (Event.searchReq f ::
            (fetchAndSave o n (o.search f).1 (o.search f).2.1).2) := by
        rw [scrape_category_fetch o n f flag h hc]
      rw [h1, h2, writesOf_cons_searchReq,
        fetchAndSave_writes o n (o.search f).1 (o.search f).2.1]
      intro fo hfo it hit
      by_cases he : (fetchAndSave o n (o.search f).1 (o.search f).2.1).1 = []
      · rw [if_pos he] at hfo
        simp at hfo
      · rw [if_neg he] at hfo
        rcases List.mem_singleton.mp hfo with rfl
        exact hit

theorem sessionStep_files (o : Oracle) (st : SessionState) (isLast : Bool)
    (cat : String × Filters) :
    ∀ fo ∈ writesOf (sessionStep o st isLast cat).2,
      ∀ c s, Event.persist c s ∈ (sessionStep o st isLast cat).2 →
        ∀ it ∈ fo.items, ∀ i, truthyId it = some i → i ∈ s := by
  by_cases hskip : cat.1 ∈ st.completed
  · rw [sessionStep_skip o st isLast cat hskip]
    intro fo hfo
    simp [writesOf] at hfo
  · rw [sessionStep_run o st isLast cat hskip]
    intro fo hfo c s hpers it hit i hti
    have htail_w : writesOf (if isLast then []
        else [Event.sleep DELAY_BETWEEN_SEARCHES]) = [] := by
      cases isLast <;> rfl
    have hfo2 : fo ∈ writesOf (scrape_category o cat.1 cat.2 true).2 := by
      rw [writesOf_append, writesOf_append, htail_w, List.append_nil] at hfo
      rcases List.mem_append.mp hfo with hfo | hfo
      · exact hfo
      · simp [writesOf] at hfo
    have hseq : s = addSeen st.seen (scrape_category o cat.1 cat.2 true).1 := by
      rcases List.mem_append.mp hpers with hp | hp
      · rcases List.mem_append.mp hp with hp | hp
        · exact absurd hp (persist_not_mem_of_filter_nil _
            (scrape_category_no_persists o cat.1 cat.2 true) c s)
        · exact (Event.persist.inj (List.mem_singleton.mp hp)).2
      · cases isLast <;> simp at hp
    subst hseq
    exact addSeen_mem _ st.seen it
      (scrape_category_write_items o cat.1 cat.2 true fo hfo2 it hit) i hti

theorem sessionLoop_files (o : Oracle) :
    ∀ (cats : List (String × Filters)) (init : SessionState),
      ∀ evs ∈ (sessionLoop o init cats).2, ∀ fo ∈ writesOf evs,
        ∀ c s, Event.persist c s ∈ evs →
          ∀ it ∈ fo.items, ∀ i, truthyId it = some i → i ∈ s
  | [], _, evs, hevs => by simp [sessionLoop] at hevs
  | cat :: rest, init, evs, hevs => by
      rcases List.mem_cons.mp hevs with rfl | hevs2
      · exact sessionStep_files o init rest.isEmpty cat
      · exact sessionLoop_files o rest
          (sessionStep o init rest.isEmpty cat).1 evs hevs2

theorem sessionLoop_persists (o : Oracle) :
    ∀ (cats : List (String × Filters)) (init : SessionState)
      (c s : Finset String),
      Event.persist c s ∈ (sessionLoop o init cats).2.flatten →
      init.completed ⊆ c ∧ init.seen ⊆ s
  | [], init, c, s, h => by simp [sessionLoop] at h
  | cat :: rest, init, c, s, h => by
      have hsplit : (sessionLoop o init (cat :: rest)).2.flatten =
          (sessionStep o init rest.isEmpty cat).2 ++
          (sessionLoop o (sessionStep o init rest.isEmpty cat).1
            rest).2.flatten := by
        show ((sessionStep o init rest.isEmpty cat).2 ::
          (sessionLoop o (sessionStep o init rest.isEmpty cat).1
            rest).2).flatten = _
        rw [List.flatten_cons]
      rw [hsplit] at h
      rcases List.mem_append.mp h with h | h
      · by_cases hskip : cat.1 ∈ init.completed
        · rw [sessionStep_skip o init rest.isEmpty cat hskip] at h
          simp at h
        · rw [sessionStep_run o init rest.isEmpty cat hskip] at h
          rcases List.mem_append.mp h with h | h
          · rcases List.mem_append.mp h with h | h
            · exact absurd h (persist_not_mem_of_filter_nil _
                (scrape_category_no_persists o cat.1 cat.2 true) c s)
            · obtain ⟨h1, h2⟩ := Event.persist.inj (List.mem_singleton.mp h)
              subst h1
              subst h2
              exact ⟨Finset.subset_insert _ _, addSeen_subset _ _⟩
          · cases rest.isEmpty <;> simp at h
      · have ih := sessionLoop_persists o rest
          (sessionStep o init rest.isEmpty cat).1 c s h
        have hm := sessionStep_mono o init rest.isEmpty cat
        exact ⟨Finset.Subset.trans hm.1 ih.1, Finset.Subset.trans hm.2 ih.2⟩

/-- Witness for C3 (amended) on a concrete empty-search network. -/
theorem small_total_amended_spec_witness :
    (scrape_category emptySearchOracle ("Magic_0-2c") ⟨none, 0⟩ true).2.filter
      isSub = [] ∧
    (writesOf (scrape_category emptySearchOracle ("Magic_0-2c") ⟨none, 0⟩
      true).2).length ≤ 1 ∧
    (scrape_category emptySearchOracle ("Magic_0-2c") ⟨none, 0⟩ true).1.length
      ≤ 0 := by
  have h := (small_total_amended_spec emptySearchOracle ("Magic_0-2c")
    ⟨none, 0⟩ true).1 (by decide)
  exact ⟨h.1, h.2.2.1,
    h.2.2.2 (fun b q2 => by simp [fetchResult, emptySearchOracle]) (by decide)⟩

/-- C4: a category whose name is in the current completed set is
skipped entirely by the session step — no events at all (no search
request, no fetch request, no file write, no persist) and an unchanged
progress state; and in a full session run, every category position
whose name is in the LOADED completed set contributes an empty event
list, because the completed set only grows during the run. -/
theorem completed_category_skipped (o : Oracle) (init st : SessionState)
    (cats : List (String × Filters)) (i : Nat) (isLast : Bool)
    (c : String × Filters) :
    (c.1 ∈ st.completed → sessionStep o st isLast c = (st, [])) ∧
    (i < cats.length →
      (cats.getD i (("") , ⟨none, 0⟩)).1 ∈ init.completed →
      (sessionLoop o init cats).2.getD i [Event.sleep 0] = []) :=
  ⟨sessionStep_skip o st isLast c,
   fun hi hm => sessionLoop_skip_get o cats init i hi hm⟩

/-- Witness for C4: with `Rare_0-1c` already completed, the step is a
no-op and the category contributes no events to the session run. -/
theorem completed_category_skipped_witness :
    sessionStep emptySearchOracle ⟨{("Rare_0-1c")}, ∅⟩ false
      (("Rare_0-1c"), ⟨none, 0⟩) = (⟨{("Rare_0-1c")}, ∅⟩, []) ∧
    (sessionLoop emptySearchOracle ⟨{("Rare_0-1c")}, ∅⟩
      [(("Rare_0-1c"), ⟨none, 0⟩)]).2.getD 0 [Event.sleep 0] = [] := by
  have h := completed_category_skipped emptySearchOracle
    ⟨{("Rare_0-1c")}, ∅⟩ ⟨{("Rare_0-1c")}, ∅⟩
    [(("Rare_0-1c"), ⟨none, 0⟩)] 0 false (("Rare_0-1c"), ⟨none, 0⟩)
  exact ⟨h.1 (by decide), h.2 (by decide) (by decide)⟩

/-- C7: when the search returns zero item IDs, the pipeline terminates
early for that category — no fetch request is issued and no output
file is written — and the session loop nevertheless inserts the
category into `completed_categories` and persists it, with the seen
set unchanged. -/
theorem empty_search_marks_completed (o : Oracle) (n : String) (f : Filters)
    (flag : Bool) (st : SessionState) (isLast : Bool) (q : String) (t : Nat)
    (hs : o.search f = ([], q, t)) (hn : n ∉ st.completed) :
    scrape_category o n f flag = ([], [Event.searchReq f]) ∧
    (sessionStep o st isLast (n, f)).1 = ⟨insert n st.completed, st.seen⟩ ∧
    Event.persist (insert n st.completed) st.seen ∈
      (sessionStep o st isLast (n, f)).2 ∧
    writesOf (sessionStep o st isLast (n, f)).2 = [] ∧
    (sessionStep o st isLast (n, f)).2.filter isFetchReq = [] := by
  have h1 : (o.search f).1 = [] := by rw [hs]
  have hcat := scrape_category_empty o n f true h1
  have hrun := sessionStep_run o st isLast (n, f) hn
  rw [hcat] at hrun
  refine ⟨scrape_category_empty o n f flag h1, ?_, ?_, ?_, ?_⟩
  · rw [hrun]
    rfl
  · rw [hrun]
    refine List.mem_append.mpr (Or.inl (List.mem_append.mpr (Or.inr ?_)))
    exact List.mem_singleton.mpr rfl
  · rw [hrun]
    cases isLast <;> rfl
  · rw [hrun]
    cases isLast <;> rfl

/-- Witness for C7 on the empty-search network. -/
theorem empty_search_marks_completed_witness :
    scrape_category emptySearchOracle ("Unique_0-5c") ⟨none, 0⟩ true =
      ([], [Event.searchReq ⟨none, 0⟩]) ∧
    (sessionStep emptySearchOracle ⟨∅, ∅⟩ true
      (("Unique_0-5c"), ⟨none, 0⟩)).1 = ⟨insert ("Unique_0-5c") ∅, ∅⟩ ∧
    Event.persist (insert ("Unique_0-5c") ∅) ∅ ∈
      (sessionStep emptySearchOracle ⟨∅, ∅⟩ true
        (("Unique_0-5c"), ⟨none, 0⟩)).2 ∧
    writesOf (sessionStep emptySearchOracle ⟨∅, ∅⟩ true
      (("Unique_0-5c"), ⟨none, 0⟩)).2 = [] ∧
    (sessionStep emptySearchOracle ⟨∅, ∅⟩ true
      (("Unique_0-5c"), ⟨none, 0⟩)).2.filter isFetchReq = [] :=
  empty_search_marks_completed emptySearchOracle ("Unique_0-5c") ⟨none, 0⟩
    true ⟨∅, ∅⟩ true ("") 0 (by decide) (by decide)

/-- C9: within a session run started from loaded state `init`, the
final completed and seen sets contain the loaded ones; every persisted
pair contains the loaded sets (a persisted category name is never
removed); and every truthy item ID of any file written during a
category's step is a member of the seen set persisted at that step. -/
theorem progress_state_invariant (o : Oracle) (init : SessionState)
    (cats : List (String × Filters)) :
    init.completed ⊆ (sessionLoop o init cats).1.completed ∧
    init.seen ⊆ (sessionLoop o init cats).1.seen ∧
    (∀ c s, Event.persist c s ∈ (sessionLoop o init cats).2.flatten →
      init.completed ⊆ c ∧ init.seen ⊆ s) ∧
    (∀ evs ∈ (sessionLoop o init cats).2, ∀ fo ∈ writesOf evs,
      ∀ c s, Event.persist c s ∈ evs →
        ∀ it ∈ fo.items, ∀ i, truthyId it = some i → i ∈ s) :=
  ⟨(sessionLoop_mono o init cats).1, (sessionLoop_mono o init cats).2,
   fun c s h => sessionLoop_persists o cats init c s h,
   fun evs hevs => sessionLoop_files o cats init evs hevs⟩

/-- Witness for C9 on a one-item network: the item id written to the
category file is in the persisted seen set. -/
theorem progress_state_invariant_witness :
    ("id1") ∈ addSeen (∅ : Finset String)
      (scrape_category oneItemOracle ("CatA") ⟨none, 0⟩ true).1 := by
  have h := (progress_state_invariant oneItemOracle ⟨∅, ∅⟩
    [(("CatA"), ⟨none, 0⟩)]).2.2.2
  refine h ((sessionLoop oneItemOracle ⟨∅, ∅⟩
      [(("CatA"), ⟨none, 0⟩)]).2.get ⟨0, by decide⟩)
    (List.get_mem _ 0 _)
    ((writesOf ((sessionLoop oneItemOracle ⟨∅, ∅⟩
      [(("CatA"), ⟨none, 0⟩)]).2.get ⟨0, by decide⟩)).get ⟨0, by decide⟩)
    (List.get_mem _ 0 _)
    (insert ("CatA") ∅)
    (addSeen ∅ (scrape_category oneItemOracle ("CatA") ⟨none, 0⟩ true).1)
    (by decide) ⟨some ("id1"), 0⟩ (by decide) ("id1") (by decide)

theorem masterStep_eq_none (acc : List Item × Finset String) (it : Item)
    (h : truthyId it = none) : masterStep acc it = acc := by
  unfold masterStep
  rw [h]

theorem masterStep_eq_seen (acc : List Item × Finset String) (it : Item)
    (i : String) (h : truthyId it = some i) (hi : i ∈ acc.2) :
    masterStep acc it = acc := by
  unfold masterStep
  rw [h]
  show (if i ∈ acc.2 then acc else (acc.1 ++ [it], insert i acc.2)) = acc
  rw [if_pos hi]

theorem masterStep_eq_new (acc : List Item × Finset String) (it : Item)
    (i : String) (h : truthyId it = some i) (hi : i ∉ acc.2) :
    masterStep acc it = (acc.1 ++ [it], insert i acc.2) := by
  unfold masterStep
  rw [h]
  show (if i ∈ acc.2 then acc else (acc.1 ++ [it], insert i acc.2)) = _
  rw [if_neg hi]

theorem dedupeById_cons_none (seen : Finset String) (it : Item)
    (rest : List Item) (h : truthyId it = none) :
    dedupeById seen (it :: rest) = dedupeById seen rest := by
  conv_lhs => simp only [dedupeById]
  rw [h]

theorem dedupeById_cons_seen (seen : Finset String) (it : Item)
    (rest : List Item) (i : String) (h : truthyId it = some i)
    (hi : i ∈ seen) :
    dedupeById seen (it :: rest) = dedupeById seen rest := by
  conv_lhs => simp only [dedupeById]
  rw [h]
  show (if i ∈ seen then dedupeById seen rest
    else it :: dedupeById (insert i seen) rest) = _
  rw [if_pos hi]

theorem dedupeById_cons_new (seen : Finset String) (it : Item)
    (rest : List Item) (i : String) (h : truthyId it = some i)
    (hi : i ∉ seen) :
    dedupeById seen (it :: rest) = it :: dedupeById (insert i seen) rest := by
  conv_lhs => simp only [dedupeById]
  rw [h]
  show (if i ∈ seen then dedupeById seen rest
    else it :: dedupeById (insert i seen) rest) = _
  rw [if_neg hi]

theorem dedupeSeen_cons_none (seen : Finset String) (it : Item)
    (rest : List Item) (h : truthyId it = none) :
    dedupeSeen seen (it :: rest) = dedupeSeen seen rest := by
  conv_lhs => simp only [dedupeSeen]
  rw [h]

theorem dedupeSeen_cons_seen (seen : Finset String) (it : Item)
    (rest : List Item) (i : String) (h : truthyId it = some i)
    (hi : i ∈ seen) :
    dedupeSeen seen (it :: rest) = dedupeSeen seen rest := by
  conv_lhs => simp only [dedupeSeen]
  rw [h]
  show (if i ∈ seen then dedupeSeen seen rest
    else dedupeSeen (insert i seen) rest) = _
  rw [if_pos hi]

theorem dedupeSeen_cons_new (seen : Finset String) (it : Item)
    (rest : List Item) (i : String) (h : truthyId it = some i)
    (hi : i ∉ seen) :
    dedupeSeen seen (it :: rest) = dedupeSeen (insert i seen) rest := by
  conv_lhs => simp only [dedupeSeen]
  rw [h]
  show (if i ∈ seen then dedupeSeen seen rest
    else dedupeSeen (insert i seen) rest) = _
  rw [if_neg hi]

theorem masterFold_eq (l : List Item) :
    ∀ (acc : List Item) (seen : Finset String),
      l.foldl masterStep (acc, seen) =
        (acc ++ dedupeById seen l, dedupeSeen seen l) := by
  induction l with
  | nil =>
      intro acc seen
      simp [dedupeById, dedupeSeen]
  | cons it rest ih =>
      intro acc seen
      rw [List.foldl_cons]
      cases hti : truthyId it with
      | none =>
          rw [masterStep_eq_none (acc, seen) it hti, ih,
            dedupeById_cons_none seen it rest hti,
            dedupeSeen_cons_none seen it rest hti]
      | some i =>
          by_cases hi : i ∈ seen
          · rw [masterStep_eq_seen (acc, seen) it i hti hi, ih,
              dedupeById_cons_seen seen it rest i hti hi,
              dedupeSeen_cons_seen seen it rest i hti hi]
          · rw [masterStep_eq_new (acc, seen) it i hti hi, ih,
              dedupeById_cons_new seen it rest i hti hi,
              dedupeSeen_cons_new seen it rest i hti hi]
            simp

theorem dedupe_append (a : List Item) :
    ∀ (b : List Item) (seen : Finset String),
      dedupeById seen (a ++ b) =
        dedupeById seen a ++ dedupeById (dedupeSeen seen a) b ∧
      dedupeSeen seen (a ++ b) = dedupeSeen (dedupeSeen seen a) b := by
  induction a with
  | nil =>
      intro b seen
      simp [dedupeById, dedupeSeen]
  | cons it rest ih =>
      intro b seen
      rw [List.cons_append]
      cases hti : truthyId it with
      | none =>
          rw [dedupeById_cons_none seen it (rest ++ b) hti,
            dedupeById_cons_none seen it rest hti,
            dedupeSeen_cons_none seen it (rest ++ b) hti,
            dedupeSeen_cons_none seen it rest hti]
          exact ih b seen
      | some i =>
          by_cases hi : i ∈ seen
          · rw [dedupeById_cons_seen seen it (rest ++ b) i hti hi,
              dedupeById_cons_seen seen it rest i hti hi,
              dedupeSeen_cons_seen seen it (rest ++ b) i hti hi,
              dedupeSeen_cons_seen seen it rest i hti hi]
            exact ih b seen
          · rw [dedupeById_cons_new seen it (rest ++ b) i hti hi,
              dedupeById_cons_new seen it rest i hti hi,
              dedupeSeen_cons_new seen it (rest ++ b) i hti hi,
              dedupeSeen_cons_new seen it rest i hti hi]
            refine ⟨?_, (ih b (insert i seen)).2⟩
            rw [List.cons_append, (ih b (insert i seen)).1]

theorem masterDir_eq (dir : List DirFile) :
    ∀ (acc : List Item) (seen : Finset String),
      dir.foldl
        (fun a f =>
          if scannedFile f.filename then f.items.foldl masterStep a else a)
        (acc, seen) =
      (acc ++ dedupeById seen (scannedItems dir),
       dedupeSeen seen (scannedItems dir)) := by
  induction dir with
  | nil =>
      intro acc seen
      simp [scannedItems, dedupeById, dedupeSeen]
  | cons fd rest ih =>
      intro acc seen
      rw [List.foldl_cons]
      by_cases hs : scannedFile fd.filename
      · rw [if_pos hs, masterFold_eq fd.items acc seen, ih]
        have hsc : scannedItems (fd :: rest) =
            fd.items ++ scannedItems rest := by
          simp [scannedItems, hs]
        rw [hsc, (dedupe_append fd.items (scannedItems rest) seen).1,
          (dedupe_append fd.items (scannedItems rest) seen).2]
        simp
      · rw [if_neg hs, ih]
        have hsc : scannedItems (fd :: rest) = scannedItems rest := by
          simp [scannedItems, hs]
        rw [hsc]

theorem dedupe_countP (i : String) (l : List Item) :
    ∀ seen : Finset String,
      (dedupeById seen l).countP (fun it => truthyId it == some i) =
        (if i ∉ seen ∧ l.any (fun it => truthyId it == some i)
         then 1 else 0) := by
  induction l with
  | nil =>
      intro seen
      simp [dedupeById]
  | cons it rest ih =>
      intro seen
      cases hti : truthyId it with
      | none =>
          have hpit : (truthyId it == some i) = false := by
            rw [hti]
            rfl
          rw [dedupeById_cons_none seen it rest hti, ih]
          simp [List.any_cons, hpit]
      | some j =>
          by_cases hj : j ∈ seen
          · rw [dedupeById_cons_seen seen it rest j hti hj, ih]
            by_cases hij : i = j
            · subst hij
              simp [hj]
            · have hpit : (truthyId it == some i) = false := by
                rw [hti]
                simp only [beq_eq_false_iff_ne, ne_eq, Option.some.injEq]
                exact fun h => hij h.symm
              simp [List.any_cons, hpit]
          · by_cases hij : i = j
            · subst hij
              have hpit : (truthyId it == some i) = true := by
                rw [hti]
                simp
              rw [dedupeById_cons_new seen it rest i hti hj,
                List.countP_cons_of_pos (fun x => truthyId x == some i) _
                  (by simp [hpit]), ih]
              simp [hj, List.any_cons, hpit, Finset.mem_insert]
            · have hpit : (truthyId it == some i) = false := by
                rw [hti]
                simp only [beq_eq_false_iff_ne, ne_eq, Option.some.injEq]
                exact fun h => hij h.symm
              rw [dedupeById_cons_new seen it rest j hti hj,
                List.countP_cons_of_neg (fun x => truthyId x == some i) _
                  (by simp [hpit]), ih]
              simp [Finset.mem_insert, hij, List.any_cons, hpit]

theorem dedupe_find (i : String) (l : List Item) :
    ∀ seen : Finset String,
      (dedupeById seen l).find? (fun it => truthyId it == some i) =
        (if i ∈ seen then none
         else l.find? (fun it => truthyId it == some i)) := by
  induction l with
  | nil =>
      intro seen
      simp [dedupeById]
  | cons it rest ih =>
      intro seen
      cases hti : truthyId it with
      | none =>
          have hpit : (truthyId it == some i) = false := by
            rw [hti]
            rfl
          rw [dedupeById_cons_none seen it rest hti, ih,
            List.find?_cons_of_neg _ (by simp [hpit])]
      | some j =>
          by_cases hj : j ∈ seen
          · rw [dedupeById_cons_seen seen it rest j hti hj, ih]
            by_cases hij : i = j
            · subst hij
              rw [if_pos hj, if_pos hj]
            · have hpit : (truthyId it == some i) = false := by
                rw [hti]
                simp only [beq_eq_false_iff_ne, ne_eq, Option.some.injEq]
                exact fun h => hij h.symm
              rw [List.find?_cons_of_neg _ (by simp [hpit])]
          · by_cases hij : i = j
            · subst hij
              have hpit : (truthyId it == some i) = true := by
                rw [hti]
                simp
              rw [dedupeById_cons_new seen it rest i hti hj,
                List.find?_cons_of_pos _ (by simp [hpit]), if_neg hj,
                List.find?_cons_of_pos _ (by simp [hpit])]
            · have hpit : (truthyId it == some i) = false := by
                rw [hti]
                simp only [beq_eq_false_iff_ne, ne_eq, Option.some.injEq]
                exact fun h => hij h.symm
              rw [dedupeById_cons_new seen it rest j hti hj,
                List.find?_cons_of_neg _ (by simp [hpit]), ih,
                List.find?_cons_of_neg _ (by simp [hpit])]
              by_cases hi2 : i ∈ seen
              · rw [if_pos (Finset.mem_insert_of_mem hi2), if_pos hi2]
              · rw [if_neg (by simp [Finset.mem_insert, hij, hi2]),
                  if_neg hi2]

/-- C5: the Aggregator scans exactly the `.json` files other than the
progress file and any prior `MASTER` file; its master item list is the
first-occurrence-wins dedup of the scanned items in file-enumeration
order: every id occurring among the scanned items appears exactly once
(count 1, count 0 when absent), and the record kept for an id is the
first item carrying it in enumeration order. -/
theorem master_file_dedup (dir : List DirFile) (i : String) :
    (create_master_file dir).1 = dedupeById ∅ (scannedItems dir) ∧
    (∀ fd ∈ dir, (scannedFile fd.filename = true ↔
      (strEndsWith fd.filename (".json") = true ∧
       fd.filename ≠ ("progress.json") ∧
       strStartsWith fd.filename ("MASTER") = false))) ∧
    (create_master_file dir).1.countP (fun it => truthyId it == some i) =
      (if (scannedItems dir).any (fun it => truthyId it == some i)
       then 1 else 0) ∧
    (create_master_file dir).1.find? (fun it => truthyId it == some i) =
      (scannedItems dir).find? (fun it => truthyId it == some i) := by
  have hm : (create_master_file dir).1 = dedupeById ∅ (scannedItems dir) := by
    show (dir.foldl
      (fun acc f =>
        if scannedFile f.filename then f.items.foldl masterStep acc else acc)
      ([], ∅)).1 = _
    rw [masterDir_eq dir [] ∅]
    simp
  refine ⟨hm, ?_, ?_, ?_⟩
  · intro fd _
    simp only [scannedFile, Bool.and_eq_true, Bool.not_eq_true',
      beq_eq_false_iff_ne, ne_eq, and_assoc]
  · rw [hm, dedupe_countP]
    simp
  · rw [hm, dedupe_find]
    simp

/-- Witness for C5: an id appearing in two category files is kept once
in the master list, and the progress file is not scanned. -/
theorem master_file_dedup_witness :
    (create_master_file
      [⟨("a.json"), [⟨some ("x"), 0⟩]⟩,
       ⟨("b.json"), [⟨some ("x"), 1⟩, ⟨some ("y"), 2⟩]⟩,
       ⟨("progress.json"), [⟨some ("z"), 3⟩]⟩]).1.countP
      (fun it => truthyId it == some ("x")) = 1 ∧
    scannedFile ("progress.json") = false := by
  have h := master_file_dedup
    [⟨("a.json"), [⟨some ("x"), 0⟩]⟩,
     ⟨("b.json"), [⟨some ("x"), 1⟩, ⟨some ("y"), 2⟩]⟩,
     ⟨("progress.json"), [⟨some ("z"), 3⟩]⟩] ("x")
  constructor
  · rw [h.2.2.1]
    decide
  · have hiff := h.2.1 ⟨("progress.json"), [⟨some ("z"), 3⟩]⟩ (by decide)
    have hne : ¬ (scannedFile ("progress.json") = true) := by
      rw [hiff]
      intro hcon
      exact hcon.2.1 rfl
    simpa using hne

end Poe2
